import Mathlib

/-!
Verification of the RouteRadar map subsystem (files `main.js` and `src/map.js`).

The development shallowly embeds, in order:
* a model of `encodeURIComponent` (ECMAScript percent-encoding) and of JavaScript
  decimal stringification of integral numbers,
* the two tile-URL builders `buildHRDEMWmsUrl` and `buildCogTileUrl`,
* the Web Mercator projection `lngLatTo3857`,
* the style document produced by `initMap` and the runtime mutation operations of
  `main.js` (`updateCogSource` and the UI event listeners), as explicit state
  passing over a `StyleDocument` value.

Machine floats of the JavaScript source are modelled as rationals where only
exact decimal literals and comparisons occur, and as real numbers for the
projection formulas.  All modelled operations are total, as in the source.
-/

set_option maxRecDepth 10000

namespace RouteRadar

/-! ## Strings: substring occurrence -/

/-- Boolean test that `p` is a prefix of `l` (character lists). -/
def isPrefixL : List Char → List Char → Bool
  | [], _ => true
  | _ :: _, [] => false
  | a :: as, b :: bs => a == b && isPrefixL as bs

/-- Boolean test that `p` occurs contiguously inside `l` (character lists). -/
def hasInfixL (p : List Char) : List Char → Bool
  | [] => isPrefixL p []
  | c :: cs => isPrefixL p (c :: cs) || hasInfixL p cs

/-- `strContains s pat`: the string `pat` occurs contiguously inside `s`. -/
def strContains (s pat : String) : Bool :=
  hasInfixL pat.data s.data

/-! ## Model of `encodeURIComponent`

ECMAScript `encodeURIComponent` leaves the characters `A-Z a-z 0-9 - _ . ! ~ * ( )` and the apostrophe
unchanged and replaces every other character by the `%HH`-encoding of its UTF-8 bytes. -/

/-- Characters left unchanged by `encodeURIComponent` (by code point). -/
def uriUnreserved (c : Char) : Bool :=
  (65 ≤ c.toNat && c.toNat ≤ 90) || (97 ≤ c.toNat && c.toNat ≤ 122) ||
  (48 ≤ c.toNat && c.toNat ≤ 57) ||
  c.toNat == 45 || c.toNat == 95 || c.toNat == 46 || c.toNat == 33 ||
  c.toNat == 126 || c.toNat == 42 || c.toNat == 39 || c.toNat == 40 || c.toNat == 41

/-- Upper-case hexadecimal digit for `n < 16`. -/
def hexDigitChar (n : Nat) : Char :=
  Char.ofNat (if n < 10 then 48 + n else 55 + n)

/-- UTF-8 bytes of a code point. -/
def utf8Bytes (n : Nat) : List Nat :=
  if n < 128 then [n]
  else if n < 2048 then [192 + n / 64, 128 + n % 64]
  else if n < 65536 then [224 + n / 4096, 128 + n / 64 % 64, 128 + n % 64]
  else [240 + n / 262144, 128 + n / 4096 % 64, 128 + n / 64 % 64, 128 + n % 64]

/-- `%HH` rendering of a byte sequence. -/
def pctEncode : List Nat → List Char
  | [] => []
  | b :: bs => Char.ofNat 37 :: hexDigitChar (b / 16) :: hexDigitChar (b % 16) :: pctEncode bs

/-- Encoding of one character. -/
def encChar (c : Char) : List Char :=
  if uriUnreserved c then [c] else pctEncode (utf8Bytes c.toNat)

/-- Encoding of a character list. -/
def encChars : List Char → List Char
  | [] => []
  | c :: cs => encChar c ++ encChars cs

/-- Model of JavaScript `encodeURIComponent`. -/
def encodeURIComponent (s : String) : String :=
  String.mk (encChars s.data)

/-! ## JavaScript number-to-string for integers

Template-literal interpolation (`${zFactor}` and friends) stringifies numbers; on
integral values this is plain signed decimal notation, modelled here with a
fuel-based digit printer (`fuel = n + 1` always suffices, as each step divides
the remaining value by 10). -/

/-- Decimal digits of `n`, most significant first (fuel-based recursion). -/
def natToDecAux : Nat → Nat → List Char
  | 0, _ => []
  | f + 1, n =>
    if n < 10 then [Char.ofNat (48 + n)]
    else natToDecAux f (n / 10) ++ [Char.ofNat (48 + n % 10)]

/-- Decimal notation of a natural number. -/
def natToDec (n : Nat) : List Char :=
  natToDecAux (n + 1) n

/-- Model of JavaScript number stringification, restricted to integral values. -/
def intToDecimal : Int → String
  | Int.ofNat n => String.mk (natToDec n)
  | Int.negSucc n => String.mk (Char.ofNat 45 :: natToDec (n + 1))

/-! ## The two tile-URL builders (`src/map.js`)

`buildHRDEMWmsUrl(zFactor = 5, rescale = null)` concatenates a fixed WMS skeleton,
a `zFactor` query field, and — when a rescale object is supplied — six per-channel
rescale fields.  The numeric parameters (`zFactor`, `rescale.min`, `rescale.max`)
are modelled as integers; JavaScript interpolates their decimal notation.  A `null`
rescale is `Option.none`. -/

/-- The fixed part of the WMS GetMap URL, exactly as concatenated in the source. -/
def wmsBaseUrl : String :=
  "https://datacube.services.geo.ca/wrapper/ogc/elevation-hrdem-mosaic?SERVICE=WMS" ++
  "&VERSION=1.3.0" ++
  "&REQUEST=GetMap" ++
  "&LAYERS=dtm-slope" ++
  "&STYLES=slope_grey" ++
  "&FORMAT=image/png" ++
  "&TRANSPARENT=TRUE" ++
  "&CRS=EPSG:3857" ++
  "&WIDTH=256&HEIGHT=256" ++
  "&BBOX=\x7bbbox-epsg-3857\x7d"

/-- Model of `buildHRDEMWmsUrl` from `src/map.js`. -/
def buildHRDEMWmsUrl (zFactor : Int) (rescale : Option (Int × Int)) : String :=
  let url := wmsBaseUrl ++ "&zFactor=" ++ intToDecimal zFactor
  match rescale with
  | none => url
  | some (mn, mx) =>
    url ++ "&rescaleNewMinRed=" ++ intToDecimal mn ++ "&rescaleNewMaxRed=" ++ intToDecimal mx ++
    "&rescaleNewMinGreen=" ++ intToDecimal mn ++ "&rescaleNewMaxGreen=" ++ intToDecimal mx ++
    "&rescaleNewMinBlue=" ++ intToDecimal mn ++ "&rescaleNewMaxBlue=" ++ intToDecimal mx

/-!
`buildCogTileUrl` (with destructuring defaults "cividis" and "100,600" on an absent argument object) starts from a
fixed Titiler XYZ template and appends `rescale` and `colormap_name` query fields
when the (defaulted) values are truthy.  A field given as `Option.none` models an
absent (`undefined`) property, on which the JavaScript destructuring default
fires; `some s` models a provided string, on which the default does not fire and
JavaScript string truthiness is `s ≠ ""`. -/

/-- The fixed XYZ tile template of the local Titiler endpoint. -/
def cogBaseUrl : String :=
  "http://localhost:8080/cog/tiles/WebMercatorQuad/\x7bz\x7d/\x7bx\x7d/\x7by\x7d.png?url=/cogs/laurentides_merged.tif"

/-- Model of `buildCogTileUrl` from `src/map.js`. -/
def buildCogTileUrl (colormap rescale : Option String) : String :=
  let colormap := colormap.getD "cividis"
  let rescale := rescale.getD "100,600"
  let url := cogBaseUrl
  let url := if rescale = "" then url else url ++ "&rescale=" ++ encodeURIComponent rescale
  if colormap = "" then url else url ++ "&colormap_name=" ++ encodeURIComponent colormap

/-- The ten fixed WMS protocol parameters named by the specification, as
occurrence conditions on the produced URL. -/
def wmsFixedParams (u : String) : Prop :=
  strContains u "SERVICE=WMS" = true ∧
  strContains u "VERSION=1.3.0" = true ∧
  strContains u "REQUEST=GetMap" = true ∧
  strContains u "LAYERS=dtm-slope" = true ∧
  strContains u "STYLES=slope_grey" = true ∧
  strContains u "FORMAT=image/png" = true ∧
  strContains u "TRANSPARENT=TRUE" = true ∧
  strContains u "CRS=EPSG:3857" = true ∧
  strContains u "WIDTH=256" = true ∧
  strContains u "HEIGHT=256" = true

/-- A string made of decimal digits only (the sense in which a rescale text can
be called numeric). -/
def allDigits (s : String) : Bool :=
  s.data.all fun c => 48 ≤ c.toNat && c.toNat ≤ 57

/-! ## Web Mercator projection (`lngLatTo3857` in `src/map.js`) -/

/-- Model of `lngLatTo3857`: spherical Web Mercator with Earth radius
6378137.0 m, exactly as written in the source
(`x = R * lng * π / 180`, `y = R * log (tan (π / 4 + lat * π / 360))`). -/
noncomputable def lngLatTo3857 (lng lat : ℝ) : ℝ × ℝ :=
  (6378137.0 * lng * Real.pi / 180,
   6378137.0 * Real.log (Real.tan (Real.pi / 4 + lat * Real.pi / 360)))

/-! ## The style document and the rendering-engine operations used by `main.js`

A `StyleDocument` is the ordered layer list plus the source mapping (an
association list keyed by source id).  The operations are the MapLibre calls the
source uses: `getLayer`, `getSource`, `removeLayer`, `removeSource`, `addSource`,
`addLayer(…, beforeId)` (insert directly below the anchor layer),
`setLayoutProperty` for visibility and `setPaintProperty` for raster opacity. -/

/-- A raster tile source: `tiles` URL list, `tileSize`, optional `bounds`. -/
structure TileSourceConfig where
  tiles : List String
  tileSize : Nat
  bounds : Option (List ℚ)
deriving DecidableEq

/-- A raster layer: id, referenced source id, `raster-opacity` paint value and
layout visibility. -/
structure LayerConfig where
  id : String
  source : String
  opacity : ℚ
  visibility : Bool
deriving DecidableEq

/-- The live style document: ordered layers (bottom to top) plus sources. -/
structure StyleDocument where
  sources : List (String × TileSourceConfig)
  layers : List LayerConfig
deriving DecidableEq

/-- `map.getLayer(id)`. -/
def getLayer (d : StyleDocument) (i : String) : Option LayerConfig :=
  d.layers.find? fun l => l.id == i

/-- `map.getSource(id)`. -/
def getSource (d : StyleDocument) (i : String) : Option TileSourceConfig :=
  (d.sources.find? fun p => p.1 == i).map Prod.snd

/-- `map.removeLayer(id)`. -/
def removeLayer (d : StyleDocument) (i : String) : StyleDocument :=
  { d with layers := d.layers.filter fun l => !(l.id == i) }

/-- `map.removeSource(id)`. -/
def removeSource (d : StyleDocument) (i : String) : StyleDocument :=
  { d with sources := d.sources.filter fun p => !(p.1 == i) }

/-- `map.addSource(id, cfg)`. -/
def addSource (d : StyleDocument) (i : String) (src : TileSourceConfig) : StyleDocument :=
  { d with sources := d.sources ++ [(i, src)] }

/-- Insert `x` directly before the layer whose id is `anchor` (at the end when
the anchor is absent). -/
def insertBefore (anchor : String) (x : LayerConfig) : List LayerConfig → List LayerConfig
  | [] => [x]
  | y :: ys => if y.id == anchor then x :: y :: ys else y :: insertBefore anchor x ys

/-- `map.addLayer(cfg, beforeId)`. -/
def addLayerBefore (d : StyleDocument) (x : LayerConfig) (anchor : String) : StyleDocument :=
  { d with layers := insertBefore anchor x d.layers }

/-- Model of the map call setting layout visibility of a layer. -/
def setVisibility (d : StyleDocument) (i : String) (b : Bool) : StyleDocument :=
  { d with layers := d.layers.map fun l => if l.id == i then { l with visibility := b } else l }

/-- Model of the map call setting the raster opacity paint value of a layer. -/
def setOpacity (d : StyleDocument) (i : String) (q : ℚ) : StyleDocument :=
  { d with layers := d.layers.map fun l => if l.id == i then { l with opacity := q } else l }

/-! ## Application state and `updateCogSource` (`main.js`) -/

/-- The mutable page state driving `main.js`: the live style document plus the
current values of the COG control widgets (checkbox, opacity slider, colormap
selector, rescale text field). -/
structure AppState where
  doc : StyleDocument
  cogToggleChecked : Bool
  cogOpacity : ℚ
  cogColormap : String
  cogRescale : String
deriving DecidableEq

/-- The fixed Laurentides bounding box (west, south, east, north) hard-coded both
in `initMap` and in `updateCogSource`. -/
def laurentidesBounds : List ℚ :=
  [-74.30994776313827, 45.85327435249255, -74.05654223402449, 46.07484617926616]

/-- The `local-cog` source configuration built by `updateCogSource` (and, with
the default URL, by `initMap`): only the tiles URL varies. -/
def cogSourceConfig (url : String) : TileSourceConfig :=
  { tiles := [url], tileSize := 256, bounds := some laurentidesBounds }

/-- The successive style documents observable during one `updateCogSource` call:
initial, after the guarded `removeLayer`, after the guarded `removeSource`, after
`addSource`, after the `addLayer` call anchored below `hrdem-wms-layer`, after the final visibility
`setLayoutProperty`.  A layer is added by `map.addLayer` without a `layout`
entry, so it starts with the MapLibre default visibility `visible`. -/
def updateCogDocs (st : AppState) : List StyleDocument :=
  let url := buildCogTileUrl (some st.cogColormap) (some st.cogRescale)
  let d0 := st.doc
  let d1 := if (getLayer d0 "local-cog-layer").isSome then removeLayer d0 "local-cog-layer" else d0
  let d2 := if (getSource d1 "local-cog").isSome then removeSource d1 "local-cog" else d1
  let d3 := addSource d2 "local-cog" (cogSourceConfig url)
  let d4 := addLayerBefore d3
    { id := "local-cog-layer", source := "local-cog", opacity := st.cogOpacity, visibility := true }
    "hrdem-wms-layer"
  let d5 := setVisibility d4 "local-cog-layer" st.cogToggleChecked
  [d0, d1, d2, d3, d4, d5]

/-- Model of `updateCogSource` from `main.js` (the final document of
`updateCogDocs`; only the style document changes, the widget state does not). -/
def updateCogSource (st : AppState) : AppState :=
  let url := buildCogTileUrl (some st.cogColormap) (some st.cogRescale)
  let d0 := st.doc
  let d1 := if (getLayer d0 "local-cog-layer").isSome then removeLayer d0 "local-cog-layer" else d0
  let d2 := if (getSource d1 "local-cog").isSome then removeSource d1 "local-cog" else d1
  let d3 := addSource d2 "local-cog" (cogSourceConfig url)
  let d4 := addLayerBefore d3
    { id := "local-cog-layer", source := "local-cog", opacity := st.cogOpacity, visibility := true }
    "hrdem-wms-layer"
  let d5 := setVisibility d4 "local-cog-layer" st.cogToggleChecked
  { st with doc := d5 }

/-- The tile URL `updateCogSource` computes from the current widget values
(`.value` of a DOM input is always a string, so both fields are provided). -/
def cogUrl (st : AppState) : String :=
  buildCogTileUrl (some st.cogColormap) (some st.cogRescale)

/-- The layer configuration `updateCogSource` passes to `map.addLayer`. -/
def cogLayerNew (st : AppState) : LayerConfig :=
  { id := "local-cog-layer", source := "local-cog", opacity := st.cogOpacity, visibility := true }

/-- Document after the guarded `removeLayer` step of `updateCogSource`. -/
def cogD1 (st : AppState) : StyleDocument :=
  if (getLayer st.doc "local-cog-layer").isSome then removeLayer st.doc "local-cog-layer" else st.doc

/-- Document after the guarded `removeSource` step. -/
def cogD2 (st : AppState) : StyleDocument :=
  if (getSource (cogD1 st) "local-cog").isSome then removeSource (cogD1 st) "local-cog" else cogD1 st

/-- Document after `addSource`. -/
def cogD3 (st : AppState) : StyleDocument :=
  addSource (cogD2 st) "local-cog" (cogSourceConfig (cogUrl st))

/-- Document after the `addLayer` call anchored below `hrdem-wms-layer`. -/
def cogD4 (st : AppState) : StyleDocument :=
  addLayerBefore (cogD3 st) (cogLayerNew st) "hrdem-wms-layer"

/-- Document after the final visibility `setLayoutProperty`. -/
def cogD5 (st : AppState) : StyleDocument :=
  setVisibility (cogD4 st) "local-cog-layer" st.cogToggleChecked

/-- The UI events of `main.js` that reach this subsystem. `applyCog` is the
apply button (and the Enter key in the rescale field); `colormapChange` is the
colormap selector firing `change` with its new value; `rescaleInput` is typing in
the rescale field (a DOM value change with no listener side effect). -/
inductive UiEvent where
  | applyCog
  | colormapChange (s : String)
  | rescaleInput (s : String)
  | cogToggle (b : Bool)
  | cogOpacityInput (q : ℚ)
  | hrdemToggle (b : Bool)
  | hrdemOpacityInput (q : ℚ)

/-- One synchronous event-listener call from `main.js`.  The COG toggle and
opacity listeners guard the map mutation with a `map.getLayer` check for `local-cog-layer`;
the HRDEM listeners mutate unconditionally. -/
def step (st : AppState) : UiEvent → AppState
  | UiEvent.applyCog => updateCogSource st
  | UiEvent.colormapChange s => updateCogSource { st with cogColormap := s }
  | UiEvent.rescaleInput s => { st with cogRescale := s }
  | UiEvent.cogToggle b =>
    if (getLayer st.doc "local-cog-layer").isSome then
      { st with cogToggleChecked := b, doc := setVisibility st.doc "local-cog-layer" b }
    else
      { st with cogToggleChecked := b }
  | UiEvent.cogOpacityInput q =>
    if (getLayer st.doc "local-cog-layer").isSome then
      { st with cogOpacity := q, doc := setOpacity st.doc "local-cog-layer" q }
    else
      { st with cogOpacity := q }
  | UiEvent.hrdemToggle b => { st with doc := setVisibility st.doc "hrdem-wms-layer" b }
  | UiEvent.hrdemOpacityInput q => { st with doc := setOpacity st.doc "hrdem-wms-layer" q }

/-- The style documents observable while one event is processed. -/
def stepDocs (st : AppState) : UiEvent → List StyleDocument
  | UiEvent.applyCog => updateCogDocs st
  | UiEvent.colormapChange s => updateCogDocs { st with cogColormap := s }
  | e => [(step st e).doc]

/-- Folding a sequence of UI events over the state. -/
def run (st : AppState) : List UiEvent → AppState
  | [] => st
  | e :: es => run (step st e) es

/-- All style documents observable along a sequence of UI events. -/
def runDocs (st : AppState) : List UiEvent → List StyleDocument
  | [] => [st.doc]
  | e :: es => stepDocs st e ++ runDocs (step st e) es

/-! ## The initial map (`initMap` in `src/map.js`) -/

/-- The AOI bounding box declared in `src/map.js` (southwest, northeast). -/
def aoiBounds : (ℚ × ℚ) × (ℚ × ℚ) :=
  ((-76.15, 45.32), (-73.05, 46.44))

/-- Base imagery WMTS template. -/
def quebecImageryUrl : String :=
  "https://servicesmatriciels.mern.gouv.qc.ca/erdas-iws/ogc/wmts/Imagerie_Continue/Imagerie_GQ/default/GoogleMapsCompatibleExt2:epsg:3857/\x7bz\x7d/\x7by\x7d/\x7bx\x7d.jpg"

/-- Label overlay template. -/
def cartoLabelsUrl : String :=
  "https://basemaps.cartocdn.com/rastertiles/voyager_only_labels/\x7bz\x7d/\x7bx\x7d/\x7by\x7d.png"

/-- `initMap` computes its HRDEM URL as `buildHRDEMWmsUrl(aoiBounds3857)`,
passing the projected AOI corner array where the numeric `zFactor` parameter is
expected, so JavaScript stringifies that array into the `zFactor` query field.
The float-formatted digits of that stringification are not modelled (no claim
depends on this string); the value is the WMS skeleton with that opaque text. -/
def hrdemWmsUrlInit : String :=
  wmsBaseUrl ++ "&zFactor=" ++ "aoiBounds3857"

/-- A constructed map: initial style document, viewport center and zoom, and the
`maxBounds` pan restriction. -/
structure MapConfig where
  style : StyleDocument
  center : ℚ × ℚ
  zoom : ℚ
  maxBounds : (ℚ × ℚ) × (ℚ × ℚ)
deriving DecidableEq

/-- Model of `initMap` from `src/map.js`: the four sources, the four layers in
declaration order, center `[-74.19, 46.03]`, zoom 14, and `maxBounds = aoiBounds`.
Layers declared without explicit paint/layout entries get MapLibre defaults
(`raster-opacity` 1, visibility `visible`). -/
def initMap : MapConfig :=
  { style :=
      { sources :=
          [("quebec-imagery", { tiles := [quebecImageryUrl], tileSize := 256, bounds := none }),
           ("map-labels", { tiles := [cartoLabelsUrl], tileSize := 256, bounds := none }),
           ("hrdem-wms", { tiles := [hrdemWmsUrlInit], tileSize := 256, bounds := none }),
           ("local-cog", cogSourceConfig (buildCogTileUrl none none))],
        layers :=
          [{ id := "base-imagery", source := "quebec-imagery", opacity := 1, visibility := true },
           { id := "local-cog-layer", source := "local-cog", opacity := 0.8, visibility := true },
           { id := "hrdem-wms-layer", source := "hrdem-wms", opacity := 0.7, visibility := true },
           { id := "labels-layer", source := "map-labels", opacity := 1, visibility := true }] },
    center := (-74.19, 46.03),
    zoom := 14,
    maxBounds := aoiBounds }

/-- The live style document at startup. -/
def initStyle : StyleDocument := initMap.style

/-- The page state right after `initMap`, for arbitrary initial widget values
(the initial values of the widgets live in the HTML, which is not part of the
subsystem). -/
def initState (checked : Bool) (op : ℚ) (cm rs : String) : AppState :=
  { doc := initStyle, cogToggleChecked := checked, cogOpacity := op,
    cogColormap := cm, cogRescale := rs }

/-! ## Referential-integrity invariants -/

/-- Every `source` id of every layer resolves to a present source: no dangling
reference. -/
def danglingFree (d : StyleDocument) : Prop :=
  ∀ l ∈ d.layers, (getSource d l.source).isSome = true

/-- Only the dynamic layer references the dynamic source: any layer whose source
is `local-cog` is the layer `local-cog-layer`. -/
def cogRefTight (d : StyleDocument) : Prop :=
  ∀ l ∈ d.layers, l.source = "local-cog" → l.id = "local-cog-layer"

/-- The inductive invariant maintained by every observable style document. -/
def StyleInv (d : StyleDocument) : Prop :=
  danglingFree d ∧ cogRefTight d

instance (d : StyleDocument) : Decidable (danglingFree d) :=
  inferInstanceAs (Decidable (∀ l ∈ d.layers, (getSource d l.source).isSome = true))

instance (d : StyleDocument) : Decidable (cogRefTight d) :=
  inferInstanceAs (Decidable (∀ l ∈ d.layers, l.source = "local-cog" → l.id = "local-cog-layer"))

instance (d : StyleDocument) : Decidable (StyleInv d) :=
  inferInstanceAs (Decidable (danglingFree d ∧ cogRefTight d))

/-! ## General lemmas: substring occurrence -/

theorem isPrefixL_iff (p l : List Char) : isPrefixL p l = true ↔ ∃ t, l = p ++ t := by
  induction p generalizing l with
  | nil => simp [isPrefixL]
  | cons a as ih =>
    cases l with
    | nil => simp [isPrefixL]
    | cons b bs =>
      simp only [isPrefixL, Bool.and_eq_true, beq_iff_eq, ih]
      constructor
      · rintro ⟨rfl, t, rfl⟩; exact ⟨t, rfl⟩
      · rintro ⟨t, h⟩
        cases h
        exact ⟨rfl, t, rfl⟩

theorem hasInfixL_iff (p l : List Char) : hasInfixL p l = true ↔ ∃ s t, l = s ++ p ++ t := by
  induction l with
  | nil =>
    simp only [hasInfixL, isPrefixL_iff]
    constructor
    · rintro ⟨t, h⟩
      exact ⟨[], t, by simpa using h⟩
    · rintro ⟨s, t, h⟩
      exact ⟨t, by rw [h]; cases s <;> simp_all⟩
  | cons c cs ih =>
    simp only [hasInfixL, Bool.or_eq_true, isPrefixL_iff, ih]
    constructor
    · rintro (⟨t, h⟩ | ⟨s, t, h⟩)
      · exact ⟨[], t, by simpa using h⟩
      · exact ⟨c :: s, t, by simp [h]⟩
    · rintro ⟨s, t, h⟩
      cases s with
      | nil => exact Or.inl ⟨t, by simpa using h⟩
      | cons x xs =>
        right
        refine ⟨xs, t, ?_⟩
        have := congrArg List.tail h
        simpa using this

theorem data_append (a b : String) : (a ++ b).data = a.data ++ b.data := rfl

theorem str_eq_of_data (a b : String) (h : a.data = b.data) : a = b := by
  cases a
  cases b
  exact congrArg String.mk h

theorem str_append_assoc (a b c : String) : (a ++ b) ++ c = a ++ (b ++ c) := by
  apply str_eq_of_data
  simp [data_append]

theorem strContains_of_eq_append (s pat a b : String) (h : s = a ++ pat ++ b) :
    strContains s pat = true := by
  rw [strContains, hasInfixL_iff]
  exact ⟨a.data, b.data, by rw [h, data_append, data_append]⟩

theorem strContains_append_right (a b pat : String) (h : strContains a pat = true) :
    strContains (a ++ b) pat = true := by
  rw [strContains, hasInfixL_iff] at h ⊢
  obtain ⟨s, t, h⟩ := h
  exact ⟨s, t ++ b.data, by rw [data_append, h]; simp⟩

theorem strContains_append_left (a b pat : String) (h : strContains b pat = true) :
    strContains (a ++ b) pat = true := by
  rw [strContains, hasInfixL_iff] at h ⊢
  obtain ⟨s, t, h⟩ := h
  exact ⟨a.data ++ s, t, by rw [data_append, h]; simp⟩

theorem strContains_suffix (a p : String) : strContains (a ++ p) p = true :=
  strContains_of_eq_append _ _ a "" (by apply str_eq_of_data; simp [data_append])

theorem strContains_ite (c : Prop) [Decidable c] (a b p : String)
    (h1 : strContains a p = true) (h2 : strContains b p = true) :
    strContains (if c then a else b) p = true := by
  split <;> assumption

/-- A prefix of `a ++ d` is a prefix of `a`, unless some of its characters land
inside `d`. -/
theorem isPrefixL_append_split (a : List Char) (p d : List Char)
    (h : isPrefixL p (a ++ d) = true) :
    isPrefixL p a = true ∨ ∃ c, c ∈ p ∧ c ∈ d := by
  induction a generalizing p with
  | nil =>
    cases p with
    | nil => exact Or.inl rfl
    | cons y p' =>
      obtain ⟨t, ht⟩ := (isPrefixL_iff _ _).mp h
      refine Or.inr ⟨y, List.mem_cons_self y p', ?_⟩
      rw [List.nil_append] at ht
      rw [ht]
      exact List.mem_cons_self y _
  | cons x a' ih =>
    cases p with
    | nil => exact Or.inl rfl
    | cons y p' =>
      simp only [List.cons_append, isPrefixL, Bool.and_eq_true] at h
      rcases ih p' h.2 with h1 | ⟨c, hc1, hc2⟩
      · exact Or.inl (by simp [isPrefixL, h.1, h1])
      · exact Or.inr ⟨c, List.mem_cons_of_mem y hc1, hc2⟩

theorem hasInfixL_nil_pat (l : List Char) : hasInfixL [] l = true := by
  cases l with
  | nil => rfl
  | cons c cs => simp [hasInfixL, isPrefixL]

/-- An occurrence inside `a ++ d` is an occurrence inside `a`, unless some of the
characters of the pattern land inside `d`. -/
theorem hasInfixL_append_split (a : List Char) (p d : List Char)
    (h : hasInfixL p (a ++ d) = true) :
    hasInfixL p a = true ∨ ∃ c, c ∈ p ∧ c ∈ d := by
  induction a with
  | nil =>
    cases p with
    | nil => exact Or.inl (hasInfixL_nil_pat [])
    | cons y p' =>
      rw [List.nil_append] at h
      obtain ⟨s, t, ht⟩ := (hasInfixL_iff _ _).mp h
      refine Or.inr ⟨y, List.mem_cons_self y p', ?_⟩
      rw [ht]
      simp
  | cons x a' ih =>
    rw [List.cons_append] at h
    simp only [hasInfixL, Bool.or_eq_true] at h
    rcases h with h | h
    · rw [show x :: (a' ++ d) = (x :: a') ++ d from rfl] at h
      rcases isPrefixL_append_split (x :: a') p d h with h1 | h2
      · exact Or.inl (by simp [hasInfixL, h1])
      · exact Or.inr h2
    · rcases ih h with h1 | h2
      · exact Or.inl (by simp [hasInfixL, h1])
      · exact Or.inr h2

/-! ## General lemmas: percent-encoding and decimal notation -/

theorem encChars_of_unreserved (l : List Char) (h : ∀ c ∈ l, uriUnreserved c = true) :
    encChars l = l := by
  induction l with
  | nil => rfl
  | cons c cs ih =>
    have hc : uriUnreserved c = true := h c (List.mem_cons_self c cs)
    simp only [encChars, encChar, hc, if_true]
    rw [ih fun d hd => h d (List.mem_cons_of_mem c hd)]
    rfl

theorem toNat_ofNat_small (m : Nat) (h : m < 55296) : (Char.ofNat m).toNat = m := by
  have hv : m.isValidChar := Or.inl h
  rw [Char.ofNat, dif_pos hv]
  show (⟨⟨⟨m, _⟩⟩, _⟩ : Char).toNat = m
  simp [Char.toNat, UInt32.toNat]

theorem natToDecAux_codes (f n : Nat) :
    ∀ c ∈ natToDecAux f n, 48 ≤ c.toNat ∧ c.toNat ≤ 57 := by
  induction f generalizing n with
  | zero => intro c hc; simp [natToDecAux] at hc
  | succ f ih =>
    intro c hc
    simp only [natToDecAux] at hc
    by_cases h : n < 10
    · rw [if_pos h] at hc
      have : c = Char.ofNat (48 + n) := by simpa using hc
      subst this
      have hv : (Char.ofNat (48 + n)).toNat = 48 + n :=
        toNat_ofNat_small _ (by omega)
      omega
    · rw [if_neg h] at hc
      rcases List.mem_append.mp hc with h1 | h2
      · exact ih (n / 10) c h1
      · have : c = Char.ofNat (48 + n % 10) := by simpa using h2
        subst this
        have h10 : n % 10 < 10 := Nat.mod_lt _ (by omega)
        have hv : (Char.ofNat (48 + n % 10)).toNat = 48 + n % 10 :=
          toNat_ofNat_small _ (by omega)
        omega

theorem intToDecimal_codes (z : Int) :
    ∀ c ∈ (intToDecimal z).data, (48 ≤ c.toNat ∧ c.toNat ≤ 57) ∨ c.toNat = 45 := by
  cases z with
  | ofNat n =>
    intro c hc
    exact Or.inl (natToDecAux_codes (n + 1) n c hc)
  | negSucc n =>
    intro c hc
    rcases List.mem_cons.mp hc with h1 | h2
    · subst h1
      exact Or.inr (toNat_ofNat_small 45 (by omega))
    · exact Or.inl (natToDecAux_codes (n + 2) (n + 1) c h2)

theorem uriUnreserved_digit (c : Char) (h1 : 48 ≤ c.toNat) (h2 : c.toNat ≤ 57) :
    uriUnreserved c = true := by
  simp only [uriUnreserved, Bool.or_eq_true, Bool.and_eq_true, decide_eq_true_eq, beq_iff_eq]
  omega

theorem uriUnreserved_dash (c : Char) (h : c.toNat = 45) : uriUnreserved c = true := by
  simp only [uriUnreserved, Bool.or_eq_true, Bool.and_eq_true, decide_eq_true_eq, beq_iff_eq]
  omega

/-- Percent-encoding is the identity on decimal notations of integers: a numeric
parameter interpolated into a URL is already in percent-encoded form. -/
theorem encodeURIComponent_intToDecimal (z : Int) :
    encodeURIComponent (intToDecimal z) = intToDecimal z := by
  have h : ∀ c ∈ (intToDecimal z).data, uriUnreserved c = true := by
    intro c hc
    rcases intToDecimal_codes z c hc with ⟨h1, h2⟩ | h3
    · exact uriUnreserved_digit c h1 h2
    · exact uriUnreserved_dash c h3
  show String.mk (encChars (intToDecimal z).data) = intToDecimal z
  rw [encChars_of_unreserved _ h]

/-! ## General lemmas: association-list and layer-list operations -/

theorem updateCogSource_doc (st : AppState) : (updateCogSource st).doc = cogD5 st := rfl

theorem updateCogSource_widgets (st : AppState) :
    (updateCogSource st).cogToggleChecked = st.cogToggleChecked ∧
    (updateCogSource st).cogOpacity = st.cogOpacity ∧
    (updateCogSource st).cogColormap = st.cogColormap ∧
    (updateCogSource st).cogRescale = st.cogRescale :=
  ⟨rfl, rfl, rfl, rfl⟩

theorem updateCogDocs_eq (st : AppState) :
    updateCogDocs st = [st.doc, cogD1 st, cogD2 st, cogD3 st, cogD4 st, cogD5 st] := rfl

theorem find?_append_of_some {α : Type} (ps qs : List α) (q : α → Bool) (v : α)
    (h : ps.find? q = some v) : (ps ++ qs).find? q = some v := by
  induction ps with
  | nil => simp [List.find?] at h
  | cons x xs ih =>
    rw [List.cons_append]
    by_cases hx : q x
    · rw [List.find?_cons_of_pos _ hx] at h ⊢
      exact h
    · rw [List.find?_cons_of_neg _ (by simpa using hx)] at h ⊢
      exact ih h

theorem find?_append_of_none {α : Type} (ps qs : List α) (q : α → Bool)
    (h : ps.find? q = none) : (ps ++ qs).find? q = qs.find? q := by
  induction ps with
  | nil => simp
  | cons x xs ih =>
    rw [List.cons_append]
    by_cases hx : q x
    · rw [List.find?_cons_of_pos _ hx] at h
      exact absurd h (by simp)
    · rw [List.find?_cons_of_neg _ (by simpa using hx)] at h ⊢
      exact ih h

/-- Filtering away only elements the search predicate rejects does not change
`find?`. -/
theorem find?_filter_of_compat {α : Type} (ps : List α) (keep q : α → Bool)
    (h : ∀ x, keep x = false → q x = false) :
    (ps.filter keep).find? q = ps.find? q := by
  induction ps with
  | nil => rfl
  | cons x xs ih =>
    by_cases hk : keep x
    · rw [List.filter_cons_of_pos hk]
      by_cases hq : q x
      · rw [List.find?_cons_of_pos _ hq, List.find?_cons_of_pos _ hq]
      · rw [List.find?_cons_of_neg _ (by simpa using hq),
          List.find?_cons_of_neg _ (by simpa using hq)]
        exact ih
    · rw [List.filter_cons_of_neg (by simpa using hk)]
      rw [List.find?_cons_of_neg _ (by simp [h x (by simpa using hk)])]
      exact ih

theorem find?_filter_self_none {α : Type} (ps : List α) (keep q : α → Bool)
    (h : ∀ x, keep x = true → q x = false) :
    (ps.filter keep).find? q = none := by
  induction ps with
  | nil => rfl
  | cons x xs ih =>
    by_cases hk : keep x
    · rw [List.filter_cons_of_pos hk, List.find?_cons_of_neg _ (by simp [h x hk])]
      exact ih
    · rw [List.filter_cons_of_neg (by simpa using hk)]
      exact ih

theorem mem_insertBefore (a : String) (x : LayerConfig) (ls : List LayerConfig)
    (l : LayerConfig) (h : l ∈ insertBefore a x ls) : l = x ∨ l ∈ ls := by
  induction ls with
  | nil => simpa [insertBefore] using h
  | cons y ys ih =>
    rw [insertBefore] at h
    by_cases hy : y.id == a
    · rw [if_pos hy] at h
      rcases List.mem_cons.mp h with h1 | h2
      · exact Or.inl h1
      · exact Or.inr h2
    · rw [if_neg hy] at h
      rcases List.mem_cons.mp h with h1 | h2
      · exact Or.inr (h1 ▸ List.mem_cons_self y ys)
      · rcases ih h2 with h3 | h4
        · exact Or.inl h3
        · exact Or.inr (List.mem_cons_of_mem y h4)

theorem filter_insertBefore (a i : String) (x : LayerConfig) (hx : x.id = i)
    (ls : List LayerConfig) :
    (insertBefore a x ls).filter (fun l => !(l.id == i)) =
    ls.filter (fun l => !(l.id == i)) := by
  induction ls with
  | nil => simp [insertBefore, hx]
  | cons y ys ih =>
    rw [insertBefore]
    by_cases hy : y.id == a
    · rw [if_pos hy, List.filter_cons_of_neg (by simp [hx])]
    · rw [if_neg hy]
      by_cases hyi : y.id == i
      · rw [List.filter_cons_of_neg (by simpa using hyi),
          List.filter_cons_of_neg (by simpa using hyi)]
        exact ih
      · rw [List.filter_cons_of_pos (by simpa using hyi),
          List.filter_cons_of_pos (by simpa using hyi), ih]

theorem filter_eq_self_of_none (i : String) (ls : List LayerConfig)
    (h : ∀ l ∈ ls, ¬(l.id = i)) :
    ls.filter (fun l => !(l.id == i)) = ls := by
  induction ls with
  | nil => rfl
  | cons y ys ih =>
    rw [List.filter_cons_of_pos (by simpa using h y (List.mem_cons_self y ys))]
    rw [ih fun l hl => h l (List.mem_cons_of_mem y hl)]

theorem filter_map_set (i : String) (g : LayerConfig → LayerConfig)
    (hg : ∀ l, (g l).id = l.id) (ls : List LayerConfig) :
    ((ls.map fun l => if l.id == i then g l else l).filter fun l => !(l.id == i)) =
    ls.filter fun l => !(l.id == i) := by
  induction ls with
  | nil => rfl
  | cons y ys ih =>
    rw [List.map_cons]
    by_cases hy : y.id == i
    · rw [if_pos hy, List.filter_cons_of_neg (by simp [hg y]; simpa using hy),
        List.filter_cons_of_neg (by simpa using hy)]
      exact ih
    · rw [if_neg hy, List.filter_cons_of_pos (by simpa using hy),
        List.filter_cons_of_pos (by simpa using hy), ih]

theorem map_set_id (i : String) (g : LayerConfig → LayerConfig) (ls : List LayerConfig)
    (h : ∀ l ∈ ls, ¬(l.id = i)) :
    (ls.map fun l => if l.id == i then g l else l) = ls := by
  induction ls with
  | nil => rfl
  | cons y ys ih =>
    rw [List.map_cons, if_neg (by simpa using h y (List.mem_cons_self y ys))]
    rw [ih fun l hl => h l (List.mem_cons_of_mem y hl)]

theorem find?_insertBefore_self (a i : String) (x : LayerConfig) (hx : x.id = i)
    (ls : List LayerConfig) (h : ∀ l ∈ ls, ¬(l.id = i)) :
    (insertBefore a x ls).find? (fun l => l.id == i) = some x := by
  induction ls with
  | nil => simp [insertBefore, List.find?, hx]
  | cons y ys ih =>
    rw [insertBefore]
    by_cases hy : y.id == a
    · rw [if_pos hy, List.find?_cons_of_pos _ (by simpa using hx)]
    · rw [if_neg hy,
        List.find?_cons_of_neg _ (by simpa using h y (List.mem_cons_self y ys))]
      exact ih fun l hl => h l (List.mem_cons_of_mem y hl)

theorem find?_setvis_insertBefore (a i : String) (b : Bool) (x : LayerConfig) (hx : x.id = i)
    (ls : List LayerConfig) (h : ∀ l ∈ ls, ¬(l.id = i)) :
    ((insertBefore a x ls).map fun l =>
        if l.id == i then { l with visibility := b } else l).find? (fun l => l.id == i) =
    some { x with visibility := b } := by
  have hxi : (x.id == i) = true := by simp [hx]
  have hxi2 : (({ x with visibility := b } : LayerConfig).id == i) = true := by simp [hx]
  induction ls with
  | nil =>
    simp only [insertBefore, List.map_cons, List.map_nil, if_pos hxi]
    exact List.find?_cons_of_pos _ hxi2
  | cons y ys ih =>
    rw [insertBefore]
    by_cases hy : y.id == a
    · rw [if_pos hy, List.map_cons, if_pos hxi]
      exact List.find?_cons_of_pos _ hxi2
    · have hyi : ¬(y.id = i) := h y (List.mem_cons_self y ys)
      rw [if_neg hy, List.map_cons, if_neg (by simpa using hyi),
        List.find?_cons_of_neg _ (by simpa using hyi)]
      exact ih fun l hl => h l (List.mem_cons_of_mem y hl)

/-! ## Structure of the `updateCogSource` intermediate documents -/

theorem styleDoc_ext (d e : StyleDocument) (hs : d.sources = e.sources)
    (hl : d.layers = e.layers) : d = e := by
  cases d
  cases e
  cases hs
  cases hl
  rfl

theorem appState_ext (a b : AppState) (h1 : a.doc = b.doc)
    (h2 : a.cogToggleChecked = b.cogToggleChecked) (h3 : a.cogOpacity = b.cogOpacity)
    (h4 : a.cogColormap = b.cogColormap) (h5 : a.cogRescale = b.cogRescale) : a = b := by
  cases a
  cases b
  cases h1
  cases h2
  cases h3
  cases h4
  cases h5
  rfl

theorem getSource_congr (d e : StyleDocument) (h : d.sources = e.sources) (s : String) :
    getSource d s = getSource e s := by
  unfold getSource
  rw [h]

theorem cogD1_sources (st : AppState) : (cogD1 st).sources = st.doc.sources := by
  unfold cogD1
  split <;> rfl

theorem cogD2_layers (st : AppState) : (cogD2 st).layers = (cogD1 st).layers := by
  unfold cogD2
  split <;> rfl

theorem cogD3_layers (st : AppState) : (cogD3 st).layers = (cogD1 st).layers :=
  cogD2_layers st

theorem cogD3_sources (st : AppState) :
    (cogD3 st).sources =
      (cogD2 st).sources ++ [("local-cog", cogSourceConfig (cogUrl st))] := rfl

theorem cogD4_layers (st : AppState) :
    (cogD4 st).layers =
      insertBefore "hrdem-wms-layer" (cogLayerNew st) (cogD3 st).layers := rfl

theorem cogD5_layers (st : AppState) :
    (cogD5 st).layers =
      (cogD4 st).layers.map fun l =>
        if l.id == "local-cog-layer" then { l with visibility := st.cogToggleChecked }
        else l := rfl

theorem cogD5_sources (st : AppState) : (cogD5 st).sources = (cogD3 st).sources := rfl

/-- After the (guarded) `removeLayer` step no layer has the id of the dynamic layer:
either it was just filtered out, or the guard saw that it was absent. -/
theorem cogD1_no_lcl (st : AppState) :
    ∀ l ∈ (cogD1 st).layers, ¬(l.id = "local-cog-layer") := by
  unfold cogD1
  split
  · intro l hl
    have := (List.mem_filter.mp hl).2
    simpa using this
  · next hguard =>
    intro l hl
    have hnone : getLayer st.doc "local-cog-layer" = none := by
      rcases h : getLayer st.doc "local-cog-layer" with _ | v
      · rfl
      · exact absurd (by rw [h]; rfl) hguard
    have := List.find?_eq_none.mp hnone l hl
    simpa using this

theorem cogD1_layers_sub (st : AppState) :
    ∀ l ∈ (cogD1 st).layers, l ∈ st.doc.layers := by
  unfold cogD1
  split
  · intro l hl
    exact (List.mem_filter.mp hl).1
  · intro l hl
    exact hl

/-- After the (guarded) `removeSource` step the dynamic source key is absent:
either it was just filtered out, or the guard saw that it was absent. -/
theorem cogD2_find_lc_none (st : AppState) :
    (cogD2 st).sources.find? (fun p => p.1 == "local-cog") = none := by
  unfold cogD2
  split
  · exact find?_filter_self_none _ _ _ fun x hx => by
      rcases hb : (x.1 == "local-cog") with _ | _
      · rfl
      · simp [hb] at hx
  · next hguard =>
    have hnone : getSource (cogD1 st) "local-cog" = none := by
      rcases h : getSource (cogD1 st) "local-cog" with _ | v
      · rfl
      · exact absurd (by rw [h]; rfl) hguard
    unfold getSource at hnone
    exact Option.map_eq_none.mp hnone

theorem getSource_cogD3_lc (st : AppState) :
    getSource (cogD3 st) "local-cog" = some (cogSourceConfig (cogUrl st)) := by
  unfold getSource
  rw [cogD3_sources, find?_append_of_none _ _ _ (cogD2_find_lc_none st),
    List.find?_cons_of_pos _ (by simp)]
  rfl

/-- Final lookup of the rebuilt dynamic layer: present, with the remembered
visibility applied on top of the freshly inserted configuration. -/
theorem getLayer_cogD5 (st : AppState) :
    getLayer (cogD5 st) "local-cog-layer" =
      some { cogLayerNew st with visibility := st.cogToggleChecked } := by
  unfold getLayer
  rw [cogD5_layers, cogD4_layers, cogD3_layers]
  exact find?_setvis_insertBefore "hrdem-wms-layer" "local-cog-layer" st.cogToggleChecked
    (cogLayerNew st) rfl ((cogD1 st).layers) (cogD1_no_lcl st)

/-! ## Preservation of the referential-integrity invariant -/

theorem styleInv_cogD1 (st : AppState) (h : StyleInv st.doc) : StyleInv (cogD1 st) := by
  constructor
  · intro l hl
    rw [getSource_congr (cogD1 st) st.doc (cogD1_sources st)]
    exact h.1 l (cogD1_layers_sub st l hl)
  · intro l hl
    exact h.2 l (cogD1_layers_sub st l hl)

theorem cogD1_source_ne_lc (st : AppState) (h : cogRefTight st.doc) :
    ∀ l ∈ (cogD1 st).layers, ¬(l.source = "local-cog") := by
  intro l hl hsrc
  exact cogD1_no_lcl st l hl (h l (cogD1_layers_sub st l hl) hsrc)

theorem getSource_cogD2_ne (st : AppState) (s : String) (hs : ¬(s = "local-cog")) :
    getSource (cogD2 st) s = getSource (cogD1 st) s := by
  unfold cogD2
  split
  · unfold getSource
    rw [show (removeSource (cogD1 st) "local-cog").sources =
        (cogD1 st).sources.filter (fun p => !(p.1 == "local-cog")) from rfl]
    rw [find?_filter_of_compat]
    intro x hx
    have hx1 : x.1 = "local-cog" := by
      rcases hb : (x.1 == "local-cog") with _ | _
      · simp [hb] at hx
      · simpa using hb
    simp [hx1]
    intro hct
    exact hs hct.symm
  · rfl

theorem styleInv_cogD2 (st : AppState) (h : StyleInv st.doc) : StyleInv (cogD2 st) := by
  constructor
  · intro l hl
    rw [cogD2_layers] at hl
    rw [getSource_cogD2_ne st l.source (cogD1_source_ne_lc st h.2 l hl)]
    exact (styleInv_cogD1 st h).1 l hl
  · intro l hl
    rw [cogD2_layers] at hl
    exact (styleInv_cogD1 st h).2 l hl

theorem getSource_cogD3_isSome (st : AppState) (s : String)
    (h : (getSource (cogD2 st) s).isSome = true) :
    (getSource (cogD3 st) s).isSome = true := by
  unfold getSource at h ⊢
  rw [cogD3_sources]
  rcases hf : (cogD2 st).sources.find? (fun p => p.1 == s) with _ | v
  · rw [hf] at h
    simp at h
  · rw [find?_append_of_some _ _ _ _ hf]
    rfl

theorem danglingFree_cogD3 (st : AppState) (h : StyleInv st.doc) :
    danglingFree (cogD3 st) := by
  intro l hl
  rw [cogD3_layers] at hl
  refine getSource_cogD3_isSome st l.source ?_
  have := (styleInv_cogD2 st h).1 l (by rw [cogD2_layers]; exact hl)
  exact this

theorem styleInv_cogD4 (st : AppState) (h : StyleInv st.doc) : StyleInv (cogD4 st) := by
  constructor
  · intro l hl
    rw [cogD4_layers] at hl
    rcases mem_insertBefore _ _ _ _ hl with rfl | hmem
    · show (getSource (cogD4 st) "local-cog").isSome = true
      rw [show getSource (cogD4 st) "local-cog" = getSource (cogD3 st) "local-cog" from rfl,
        getSource_cogD3_lc st]
      rfl
    · show (getSource (cogD3 st) l.source).isSome = true
      exact danglingFree_cogD3 st h l hmem
  · intro l hl hsrc
    rw [cogD4_layers] at hl
    rcases mem_insertBefore _ _ _ _ hl with rfl | hmem
    · rfl
    · rw [cogD3_layers] at hmem
      exact absurd hsrc (cogD1_source_ne_lc st h.2 l hmem)

theorem styleInv_mapSet (d : StyleDocument) (i : String) (g : LayerConfig → LayerConfig)
    (hgs : ∀ l, (g l).source = l.source) (hgi : ∀ l, (g l).id = l.id) (h : StyleInv d) :
    StyleInv { d with layers := d.layers.map fun l => if l.id == i then g l else l } := by
  constructor
  · intro l hl
    obtain ⟨l₀, hl₀, rfl⟩ := List.mem_map.mp hl
    have hs : (if (l₀.id == i) = true then g l₀ else l₀).source = l₀.source := by
      split
      · exact hgs l₀
      · rfl
    rw [hs]
    exact h.1 l₀ hl₀
  · intro l hl hsrc
    obtain ⟨l₀, hl₀, rfl⟩ := List.mem_map.mp hl
    have hs : (if (l₀.id == i) = true then g l₀ else l₀).source = l₀.source := by
      split
      · exact hgs l₀
      · rfl
    have hi : (if (l₀.id == i) = true then g l₀ else l₀).id = l₀.id := by
      split
      · exact hgi l₀
      · rfl
    rw [hs] at hsrc
    rw [hi]
    exact h.2 l₀ hl₀ hsrc

theorem styleInv_setVisibility (d : StyleDocument) (i : String) (b : Bool)
    (h : StyleInv d) : StyleInv (setVisibility d i b) :=
  styleInv_mapSet d i (fun l => { l with visibility := b }) (fun _ => rfl) (fun _ => rfl) h

theorem styleInv_setOpacity (d : StyleDocument) (i : String) (q : ℚ)
    (h : StyleInv d) : StyleInv (setOpacity d i q) :=
  styleInv_mapSet d i (fun l => { l with opacity := q }) (fun _ => rfl) (fun _ => rfl) h

theorem styleInv_cogD5 (st : AppState) (h : StyleInv st.doc) : StyleInv (cogD5 st) :=
  styleInv_setVisibility (cogD4 st) "local-cog-layer" st.cogToggleChecked
    (styleInv_cogD4 st h)

/-- Every document observable during one `updateCogSource` call is free of
dangling references. -/
theorem updateCog_all_df (st : AppState) (h : StyleInv st.doc) :
    ∀ d ∈ updateCogDocs st, danglingFree d := by
  intro d hd
  rw [updateCogDocs_eq] at hd
  simp only [List.mem_cons, List.not_mem_nil, or_false] at hd
  rcases hd with rfl | rfl | rfl | rfl | rfl | rfl
  · exact h.1
  · exact (styleInv_cogD1 st h).1
  · exact (styleInv_cogD2 st h).1
  · exact danglingFree_cogD3 st h
  · exact (styleInv_cogD4 st h).1
  · exact (styleInv_cogD5 st h).1

theorem step_inv (st : AppState) (e : UiEvent) (h : StyleInv st.doc) :
    (∀ d ∈ stepDocs st e, danglingFree d) ∧ StyleInv (step st e).doc := by
  cases e with
  | applyCog => exact ⟨updateCog_all_df st h, styleInv_cogD5 st h⟩
  | colormapChange s =>
    exact ⟨updateCog_all_df { st with cogColormap := s } h,
      styleInv_cogD5 { st with cogColormap := s } h⟩
  | rescaleInput s =>
    refine ⟨?_, h⟩
    intro d hd
    have hd' : d = st.doc := by simpa [stepDocs, step] using hd
    rw [hd']
    exact h.1
  | cogToggle b =>
    have hdoc : StyleInv (step st (UiEvent.cogToggle b)).doc := by
      simp only [step]
      split
      · exact styleInv_setVisibility st.doc _ b h
      · exact h
    refine ⟨?_, hdoc⟩
    intro d hd
    have hd' : d = (step st (UiEvent.cogToggle b)).doc := by simpa [stepDocs] using hd
    rw [hd']
    exact hdoc.1
  | cogOpacityInput q =>
    have hdoc : StyleInv (step st (UiEvent.cogOpacityInput q)).doc := by
      simp only [step]
      split
      · exact styleInv_setOpacity st.doc _ q h
      · exact h
    refine ⟨?_, hdoc⟩
    intro d hd
    have hd' : d = (step st (UiEvent.cogOpacityInput q)).doc := by simpa [stepDocs] using hd
    rw [hd']
    exact hdoc.1
  | hrdemToggle b =>
    refine ⟨?_, styleInv_setVisibility st.doc _ b h⟩
    intro d hd
    have hd' : d = (step st (UiEvent.hrdemToggle b)).doc := by simpa [stepDocs] using hd
    rw [hd']
    exact (styleInv_setVisibility st.doc _ b h).1
  | hrdemOpacityInput q =>
    refine ⟨?_, styleInv_setOpacity st.doc _ q h⟩
    intro d hd
    have hd' : d = (step st (UiEvent.hrdemOpacityInput q)).doc := by simpa [stepDocs] using hd
    rw [hd']
    exact (styleInv_setOpacity st.doc _ q h).1

/-- A style document observed at any instant along any event sequence from an
invariant-satisfying state is free of dangling references. -/
theorem runDocs_df (es : List UiEvent) :
    ∀ st : AppState, StyleInv st.doc → ∀ d ∈ runDocs st es, danglingFree d := by
  induction es with
  | nil =>
    intro st h d hd
    have hd' : d = st.doc := by simpa [runDocs] using hd
    rw [hd']
    exact h.1
  | cons e es ih =>
    intro st h d hd
    simp only [runDocs] at hd
    rcases List.mem_append.mp hd with h1 | h2
    · exact (step_inv st e h).1 d h1
    · exact ih (step st e) (step_inv st e h).2 d h2

/-! ## Idempotence of `updateCogSource` -/

theorem getLayer_update_isSome (st : AppState) :
    (getLayer (updateCogSource st).doc "local-cog-layer").isSome = true := by
  rw [updateCogSource_doc, getLayer_cogD5]
  rfl

theorem cogD1_update_layers (st : AppState) :
    (cogD1 (updateCogSource st)).layers = (cogD1 st).layers := by
  have h1 : (cogD1 (updateCogSource st)).layers =
      (updateCogSource st).doc.layers.filter (fun l => !(l.id == "local-cog-layer")) := by
    show (if (getLayer (updateCogSource st).doc "local-cog-layer").isSome = true
        then removeLayer (updateCogSource st).doc "local-cog-layer"
        else (updateCogSource st).doc).layers = _
    rw [if_pos (getLayer_update_isSome st)]
    rfl
  rw [h1]
  rw [show (updateCogSource st).doc.layers =
      ((insertBefore "hrdem-wms-layer" (cogLayerNew st) (cogD2 st).layers).map fun l =>
        if l.id == "local-cog-layer" then { l with visibility := st.cogToggleChecked }
        else l) from rfl]
  rw [cogD2_layers]
  rw [filter_map_set "local-cog-layer" (fun l => { l with visibility := st.cogToggleChecked })
    (fun _ => rfl)]
  rw [filter_insertBefore "hrdem-wms-layer" "local-cog-layer" (cogLayerNew st) rfl]
  exact filter_eq_self_of_none _ _ (cogD1_no_lcl st)

theorem cogD1_update_sources (st : AppState) :
    (cogD1 (updateCogSource st)).sources = (cogD3 st).sources := by
  rw [cogD1_sources, updateCogSource_doc, cogD5_sources]

theorem cogD2_sources_all_ne (st : AppState) :
    ∀ x ∈ (cogD2 st).sources, (!(x.1 == "local-cog")) = true := by
  intro x hx
  have := List.find?_eq_none.mp (cogD2_find_lc_none st) x hx
  simpa using this

theorem cogD2_update (st : AppState) : cogD2 (updateCogSource st) = cogD2 st := by
  have hguard : (getSource (cogD1 (updateCogSource st)) "local-cog").isSome = true := by
    rw [getSource_congr _ (cogD3 st) (cogD1_update_sources st), getSource_cogD3_lc]
    rfl
  apply styleDoc_ext
  · have h1 : (cogD2 (updateCogSource st)).sources =
        (cogD1 (updateCogSource st)).sources.filter (fun p => !(p.1 == "local-cog")) := by
      show (if (getSource (cogD1 (updateCogSource st)) "local-cog").isSome = true
          then removeSource (cogD1 (updateCogSource st)) "local-cog"
          else cogD1 (updateCogSource st)).sources = _
      rw [if_pos hguard]
      rfl
    rw [h1, cogD1_update_sources, cogD3_sources, List.filter_append]
    rw [List.filter_eq_self.mpr (cogD2_sources_all_ne st)]
    simp
  · rw [cogD2_layers, cogD2_layers, cogD1_update_layers]

theorem cogD5_update (st : AppState) : cogD5 (updateCogSource st) = cogD5 st := by
  unfold cogD5 cogD4 cogD3
  rw [cogD2_update]
  rfl

/-! ## Containment helpers for the URL builders -/

theorem strContains_wms (z : Int) (r : Option (Int × Int)) (pat : String)
    (h : strContains wmsBaseUrl pat = true) :
    strContains (buildHRDEMWmsUrl z r) pat = true := by
  cases r with
  | none => exact strContains_append_right _ _ _ (strContains_append_right _ _ _ h)
  | some p =>
    rcases p with ⟨mn, mx⟩
    show strContains ((((((((((((((wmsBaseUrl ++ "&zFactor=") ++ intToDecimal z) ++
      "&rescaleNewMinRed=") ++ intToDecimal mn) ++ "&rescaleNewMaxRed=") ++ intToDecimal mx) ++
      "&rescaleNewMinGreen=") ++ intToDecimal mn) ++ "&rescaleNewMaxGreen=") ++ intToDecimal mx) ++
      "&rescaleNewMinBlue=") ++ intToDecimal mn) ++ "&rescaleNewMaxBlue=") ++ intToDecimal mx)
      pat = true
    apply strContains_append_right
    apply strContains_append_right
    apply strContains_append_right
    apply strContains_append_right
    apply strContains_append_right
    apply strContains_append_right
    apply strContains_append_right
    apply strContains_append_right
    apply strContains_append_right
    apply strContains_append_right
    apply strContains_append_right
    apply strContains_append_right
    apply strContains_append_right
    apply strContains_append_right
    exact h

theorem strContains_cog (cm rs : Option String) (pat : String)
    (h : strContains cogBaseUrl pat = true) :
    strContains (buildCogTileUrl cm rs) pat = true := by
  simp only [buildCogTileUrl]
  apply strContains_ite
  · apply strContains_ite
    · exact h
    · exact strContains_append_right _ _ _ (strContains_append_right _ _ _ h)
  · apply strContains_append_right
    apply strContains_append_right
    apply strContains_ite
    · exact h
    · exact strContains_append_right _ _ _ (strContains_append_right _ _ _ h)

theorem wmsFixedParams_all (z : Int) (r : Option (Int × Int)) :
    wmsFixedParams (buildHRDEMWmsUrl z r) :=
  ⟨strContains_wms z r _ (by decide), strContains_wms z r _ (by decide),
   strContains_wms z r _ (by decide), strContains_wms z r _ (by decide),
   strContains_wms z r _ (by decide), strContains_wms z r _ (by decide),
   strContains_wms z r _ (by decide), strContains_wms z r _ (by decide),
   strContains_wms z r _ (by decide), strContains_wms z r _ (by decide)⟩

/-! ## The claims -/

/-- Claim C1: after any sequence of reconfigure (`updateCogSource`) and
visibility-toggle (and the other UI) operations starting from the `initMap`
document, every style document observable at every instant — including each
intermediate state inside `updateCogSource`, which removes the dynamic layer
before removing its source and adds the new source before adding the layer that
references it — has the source id of every layer resolving to a present source: no
dangling reference. -/
theorem claim_C1 (checked : Bool) (op : ℚ) (cm rs : String) (es : List UiEvent)
    (d : StyleDocument) (hd : d ∈ runDocs (initState checked op cm rs) es) :
    danglingFree d :=
  runDocs_df es (initState checked op cm rs) (show StyleInv initStyle by decide) d hd

/-- Witness for C1: the invariant evaluated at a concrete observable instant. -/
theorem claim_C1_witness : danglingFree initStyle :=
  claim_C1 true 1 "" "" [] initStyle (List.mem_singleton.mpr rfl)

/-- Claim C2: invoking the reconfigure operation twice with identical colormap,
rescale, opacity and visibility inputs while the dynamic layer is already
present with that configuration yields a state (style document included: same
tile URL, same paint values, same layer order) identical to invoking it once —
stated in the strongest form, as idempotence from every starting state. -/
theorem claim_C2 (st : AppState) :
    updateCogSource (updateCogSource st) = updateCogSource st := by
  apply appState_ext
  · rw [updateCogSource_doc, updateCogSource_doc, cogD5_update]
  · rfl
  · rfl
  · rfl
  · rfl

/-- Claim C3: for every exaggeration factor and optional rescale pair, the WMS
builder output contains all ten fixed protocol parameters; the provided
variable parameters appear percent-encoded (`zFactor` always, the six
per-channel rescale fields when a rescale pair is provided); with no rescale the
rescale fields are absent; the builder is total and never fails. -/
theorem claim_C3 (z mn mx : Int) :
    wmsFixedParams (buildHRDEMWmsUrl z (some (mn, mx))) ∧
    wmsFixedParams (buildHRDEMWmsUrl z none) ∧
    strContains (buildHRDEMWmsUrl z none)
      ("&zFactor=" ++ encodeURIComponent (intToDecimal z)) = true ∧
    strContains (buildHRDEMWmsUrl z (some (mn, mx)))
      ("&zFactor=" ++ encodeURIComponent (intToDecimal z)) = true ∧
    strContains (buildHRDEMWmsUrl z (some (mn, mx)))
      ("&rescaleNewMinRed=" ++ encodeURIComponent (intToDecimal mn) ++
       "&rescaleNewMaxRed=" ++ encodeURIComponent (intToDecimal mx)) = true ∧
    strContains (buildHRDEMWmsUrl z (some (mn, mx)))
      ("&rescaleNewMinGreen=" ++ encodeURIComponent (intToDecimal mn) ++
       "&rescaleNewMaxGreen=" ++ encodeURIComponent (intToDecimal mx)) = true ∧
    strContains (buildHRDEMWmsUrl z (some (mn, mx)))
      ("&rescaleNewMinBlue=" ++ encodeURIComponent (intToDecimal mn) ++
       "&rescaleNewMaxBlue=" ++ encodeURIComponent (intToDecimal mx)) = true ∧
    strContains (buildHRDEMWmsUrl z none) "rescaleNew" = false := by
  have hnone : buildHRDEMWmsUrl z none = (wmsBaseUrl ++ "&zFactor=") ++ intToDecimal z := rfl
  have hsome : buildHRDEMWmsUrl z (some (mn, mx)) =
      (wmsBaseUrl ++ "&zFactor=") ++ intToDecimal z ++ "&rescaleNewMinRed=" ++ intToDecimal mn ++
      "&rescaleNewMaxRed=" ++ intToDecimal mx ++ "&rescaleNewMinGreen=" ++ intToDecimal mn ++
      "&rescaleNewMaxGreen=" ++ intToDecimal mx ++ "&rescaleNewMinBlue=" ++ intToDecimal mn ++
      "&rescaleNewMaxBlue=" ++ intToDecimal mx := rfl
  refine ⟨wmsFixedParams_all z (some (mn, mx)), wmsFixedParams_all z none, ?_, ?_, ?_, ?_, ?_, ?_⟩
  · rw [encodeURIComponent_intToDecimal, hnone, str_append_assoc]
    exact strContains_suffix _ _
  · rw [encodeURIComponent_intToDecimal, hsome]
    apply strContains_append_right
    apply strContains_append_right
    apply strContains_append_right
    apply strContains_append_right
    apply strContains_append_right
    apply strContains_append_right
    apply strContains_append_right
    apply strContains_append_right
    apply strContains_append_right
    apply strContains_append_right
    apply strContains_append_right
    apply strContains_append_right
    rw [str_append_assoc]
    exact strContains_suffix _ _
  · rw [encodeURIComponent_intToDecimal, encodeURIComponent_intToDecimal, hsome]
    exact strContains_of_eq_append _ _ ((wmsBaseUrl ++ "&zFactor=") ++ intToDecimal z)
      ("&rescaleNewMinGreen=" ++ intToDecimal mn ++ "&rescaleNewMaxGreen=" ++ intToDecimal mx ++
       "&rescaleNewMinBlue=" ++ intToDecimal mn ++ "&rescaleNewMaxBlue=" ++ intToDecimal mx)
      (by apply str_eq_of_data; simp [data_append])
  · rw [encodeURIComponent_intToDecimal, encodeURIComponent_intToDecimal, hsome]
    exact strContains_of_eq_append _ _
      ((wmsBaseUrl ++ "&zFactor=") ++ intToDecimal z ++ "&rescaleNewMinRed=" ++ intToDecimal mn ++
       "&rescaleNewMaxRed=" ++ intToDecimal mx)
      ("&rescaleNewMinBlue=" ++ intToDecimal mn ++ "&rescaleNewMaxBlue=" ++ intToDecimal mx)
      (by apply str_eq_of_data; simp [data_append])
  · rw [encodeURIComponent_intToDecimal, encodeURIComponent_intToDecimal, hsome]
    exact strContains_of_eq_append _ _
      ((wmsBaseUrl ++ "&zFactor=") ++ intToDecimal z ++ "&rescaleNewMinRed=" ++ intToDecimal mn ++
       "&rescaleNewMaxRed=" ++ intToDecimal mx ++ "&rescaleNewMinGreen=" ++ intToDecimal mn ++
       "&rescaleNewMaxGreen=" ++ intToDecimal mx) ""
      (by
        apply str_eq_of_data
        simp [data_append, show ("" : String).data = [] from rfl])
  · rcases hres : strContains (buildHRDEMWmsUrl z none) "rescaleNew" with _ | _
    · rfl
    · exfalso
      have hinf : hasInfixL ("rescaleNew".data)
          ((wmsBaseUrl ++ "&zFactor=").data ++ (intToDecimal z).data) = true := hres
      rcases hasInfixL_append_split _ _ _ hinf with hfix | ⟨c, hc1, hc2⟩
      · exact absurd hfix (by decide)
      · have hbig : ∀ c ∈ ("rescaleNew".data), 57 < c.toNat ∧ ¬(c.toNat = 45) := by decide
        rcases intToDecimal_codes z c hc2 with ⟨ha, hb⟩ | hc
        · exact absurd hb (by have := (hbig c hc1).1; omega)
        · exact (hbig c hc1).2 hc

/-- Claim C4, counterexample: `"abc"` is a non-numeric rescale string, yet the
builder appends it (`&rescale=abc` occurs in the output) instead of omitting
it — the code only omits empty (falsy) strings, it performs no numeric
validation. -/
theorem claim_C4_counterexample :
    allDigits "abc" = false ∧
    strContains (buildCogTileUrl none (some "abc")) "&rescale=abc" = true := by
  refine ⟨by decide, by decide⟩

/-- Claim C4, amended: the XYZ builder never fails; an empty (falsy) rescale or
colormap string is omitted from the constructed query string, while any
non-empty string — numeric or not — is appended percent-encoded. -/
theorem claim_C4_amended (cm rs : String) :
    (rs ≠ "" → strContains (buildCogTileUrl (some cm) (some rs))
      ("&rescale=" ++ encodeURIComponent rs) = true) ∧
    buildCogTileUrl (some cm) (some "") =
      (if cm = "" then cogBaseUrl
       else cogBaseUrl ++ "&colormap_name=" ++ encodeURIComponent cm) ∧
    buildCogTileUrl (some "") (some rs) =
      (if rs = "" then cogBaseUrl
       else cogBaseUrl ++ "&rescale=" ++ encodeURIComponent rs) := by
  refine ⟨?_, ?_, ?_⟩
  · intro hrs
    simp only [buildCogTileUrl, Option.getD, if_neg hrs]
    apply strContains_ite
    · rw [str_append_assoc]
      exact strContains_suffix _ _
    · apply strContains_append_right
      apply strContains_append_right
      rw [str_append_assoc]
      exact strContains_suffix _ _
  · by_cases hcm : cm = "" <;> simp [buildCogTileUrl, hcm]
  · by_cases hr : rs = "" <;> simp [buildCogTileUrl, hr]

/-- Witness for the amended C4 at a concrete non-empty, non-numeric rescale. -/
theorem claim_C4_witness :
    ("abc" : String) ≠ "" ∧
    strContains (buildCogTileUrl (some "x") (some "abc"))
      ("&rescale=" ++ encodeURIComponent "abc") = true :=
  ⟨by decide, (claim_C4_amended "x" "abc").1 (by decide)⟩

/-- Claim C5: for every input, the output of the WMS builder contains the literal
unresolved bounding-box placeholder, and the XYZ builder output contains the
literal unresolved zoom/column/row placeholders — neither builder removes or
prematurely resolves these tokens. -/
theorem claim_C5 (z : Int) (r : Option (Int × Int)) (cm rs : Option String) :
    strContains (buildHRDEMWmsUrl z r) "\x7bbbox-epsg-3857\x7d" = true ∧
    strContains (buildCogTileUrl cm rs) "\x7bz\x7d" = true ∧
    strContains (buildCogTileUrl cm rs) "\x7bx\x7d" = true ∧
    strContains (buildCogTileUrl cm rs) "\x7by\x7d" = true :=
  ⟨strContains_wms z r _ (by decide), strContains_cog cm rs _ (by decide),
   strContains_cog cm rs _ (by decide), strContains_cog cm rs _ (by decide)⟩

/-- Claim C6: with neither colormap nor rescale provided, the output of the XYZ
builder carries the documented defaults (`colormap_name=cividis`, percent-encoded
`rescale=100%2C600`) rather than omitting the parameters; with
`{colormap: "viridis", rescale: "30,90"}` it carries `colormap_name=viridis` and
`rescale=30%2C90`. -/
theorem claim_C6 :
    strContains (buildCogTileUrl none none) "colormap_name=cividis" = true ∧
    strContains (buildCogTileUrl none none) "rescale=100%2C600" = true ∧
    strContains (buildCogTileUrl (some "viridis") (some "30,90")) "colormap_name=viridis" = true ∧
    strContains (buildCogTileUrl (some "viridis") (some "30,90")) "rescale=30%2C90" = true := by
  refine ⟨by decide, by decide, by decide, by decide⟩

/-- Claim C7: toggling visibility while the dynamic layer is absent only updates
the remembered desired state (no structural effect on the document), and the
next materialization by the reconfigure operation creates the layer with the
previously requested visibility, not a hardcoded default. -/
theorem claim_C7 (st : AppState) (b : Bool)
    (h : getLayer st.doc "local-cog-layer" = none) :
    (step st (UiEvent.cogToggle b)).doc = st.doc ∧
    (getLayer (updateCogSource (step st (UiEvent.cogToggle b))).doc "local-cog-layer").map
      LayerConfig.visibility = some b := by
  have hg : ¬((getLayer st.doc "local-cog-layer").isSome = true) := by rw [h]; simp
  have hstep : step st (UiEvent.cogToggle b) = { st with cogToggleChecked := b } := by
    simp only [step]
    rw [if_neg hg]
  constructor
  · rw [hstep]
  · rw [hstep, updateCogSource_doc, getLayer_cogD5]
    rfl

/-- Witness for C7: a concrete state with the dynamic layer absent. -/
theorem claim_C7_witness :
    getLayer (StyleDocument.mk [] []) "local-cog-layer" = none ∧
    (getLayer (updateCogSource (step (AppState.mk (StyleDocument.mk [] []) false 1 "" "")
      (UiEvent.cogToggle true))).doc "local-cog-layer").map LayerConfig.visibility = some true :=
  ⟨by decide,
   (claim_C7 (AppState.mk (StyleDocument.mk [] []) false 1 "" "") true (by decide)).2⟩

/-- Claim C8: on the valid domain (longitude in [-180, 180], latitude strictly
between -90 and 90), the projection returns `x = R·λ` and
`y = R·ln(tan(π/4 + φ/2))` with `R = 6378137.0` and `λ`, `φ` the longitude and
latitude in radians; in particular the projection of (0°, 0°) is (0, 0). -/
theorem claim_C8 (lng lat : ℝ) (h1 : -180 ≤ lng) (h2 : lng ≤ 180)
    (h3 : -90 < lat) (h4 : lat < 90) :
    lngLatTo3857 lng lat =
      (6378137.0 * (lng * Real.pi / 180),
       6378137.0 * Real.log (Real.tan (Real.pi / 4 + (lat * Real.pi / 180) / 2))) ∧
    lngLatTo3857 0 0 = (0, 0) := by
  constructor
  · show (6378137.0 * lng * Real.pi / 180,
        6378137.0 * Real.log (Real.tan (Real.pi / 4 + lat * Real.pi / 360))) = _
    refine congrArg₂ Prod.mk ?_ ?_
    · ring
    · have hx : lat * Real.pi / 360 = lat * Real.pi / 180 / 2 := by ring
      rw [hx]
  · show (6378137.0 * (0 : ℝ) * Real.pi / 180,
        6378137.0 * Real.log (Real.tan (Real.pi / 4 + (0 : ℝ) * Real.pi / 360))) = (0, 0)
    refine congrArg₂ Prod.mk ?_ ?_
    · norm_num
    · norm_num [Real.tan_pi_div_four]

/-- Witness for C8 at (0°, 0°). -/
theorem claim_C8_witness :
    ((-180 : ℝ) ≤ 0 ∧ (0 : ℝ) ≤ 180 ∧ (-90 : ℝ) < 0 ∧ (0 : ℝ) < 90) ∧
    lngLatTo3857 0 0 = (0, 0) :=
  ⟨⟨by norm_num, by norm_num, by norm_num, by norm_num⟩,
   (claim_C8 0 0 (by norm_num) (by norm_num) (by norm_num) (by norm_num)).2⟩

/-- Claim C9: the initial viewport center declared by `initMap` lies within the
AOI bounding box installed as the pan restriction (`maxBounds = aoiBounds`):
each center coordinate is between the corresponding southwest and northeast
corner coordinates. -/
theorem claim_C9 :
    aoiBounds.1.1 ≤ initMap.center.1 ∧ initMap.center.1 ≤ aoiBounds.2.1 ∧
    aoiBounds.1.2 ≤ initMap.center.2 ∧ initMap.center.2 ≤ aoiBounds.2.2 ∧
    initMap.maxBounds = aoiBounds := by
  refine ⟨?_, ?_, ?_, ?_, rfl⟩ <;> norm_num [aoiBounds, initMap]

/-- Claim C10: every invocation of the reconfigure operation recreates the
`local-cog` source with the constant tile size 256 and the constant Laurentides
bounds — the same constants used at startup — and only the tiles URL entry
varies with the inputs. -/
theorem claim_C10 (st : AppState) :
    getSource (updateCogSource st).doc "local-cog" = some (cogSourceConfig (cogUrl st)) ∧
    (cogSourceConfig (cogUrl st)).tileSize = 256 ∧
    (cogSourceConfig (cogUrl st)).bounds = some laurentidesBounds ∧
    getSource initStyle "local-cog" = some (cogSourceConfig (buildCogTileUrl none none)) := by
  refine ⟨?_, rfl, rfl, ?_⟩
  · rw [updateCogSource_doc]
    rw [show getSource (cogD5 st) "local-cog" = getSource (cogD3 st) "local-cog" from rfl]
    exact getSource_cogD3_lc st
  · rfl

end RouteRadar
